import Mathlib

/-!
Verification development for the SynPath / patient_abm pathway simulation
engine.  The data model and the stepwise simulation loop are shallowly
embedded below; the notebook-level helpers (`load_environment`, the
per-patient environment copies) are translated directly from
`notebooks/simulation.ipynb`.  The core `patient_abm` package modules
(`agent.patient`, `agent.environment`, `simulation.run`) are not part of the
repository snapshot, so the corresponding definitions are modelled from the
specification, as marked in their doc comments.
-/

namespace SynPath

/-- Modelled from the spec: PatientRecordEntry (section 3), carried by the
missing `patient_abm.agent.patient` module.  `patient_time` is the logical
simulation clock, `environment_id` is `none` for the sentinel
(environment-less events), `interactions` is the ordered list of interaction
identifiers, and the remaining fields are the structured effect payload
(deltas to conditions / medications / actions / alive-state). -/
structure PatientRecordEntry where
  patient_time : Nat
  environment_id : Option Nat
  interactions : List String
  new_conditions : List String
  new_medications : List String
  new_actions : List String
  death : Bool
deriving DecidableEq, Repr

/-- Modelled from the spec: the Patient agent (section 3), carried by the
missing `patient_abm.agent.patient` module.  Demographics are immutable
after creation; `alive` starts true; `record` is the append-only, time
ordered clinical record. -/
structure PatientAgent where
  patient_id : Nat
  gender : String
  birth_date : Nat
  name : String
  alive : Bool
  conditions : List String
  medications : List String
  actions : List String
  record : List PatientRecordEntry
deriving DecidableEq, Repr

/-- Modelled from the spec: one visit record held in an Environment's
`patient_interaction_history`, "one per step in which that patient visited
this environment" (section 3). -/
structure Visit where
  patient_time : Nat
  interactions : List String
deriving DecidableEq, Repr

/-- Modelled from the spec: the Environment agent (section 3), carried by
the missing `patient_abm.agent.environment` module.
`patient_interaction_history` maps a patient_id to the ordered visits of
that patient. -/
structure EnvironmentAgent where
  environment_id : Nat
  name : String
  interactions : List String
  patient_present : Bool
  patient_interaction_history : List (Nat × List Visit)
deriving DecidableEq, Repr

/-- Projection of a record entry to the visit stored in the environment's
history: the time of the event and the interactions executed there. -/
def toVisit (e : PatientRecordEntry) : Visit :=
  { patient_time := e.patient_time, interactions := e.interactions }

/-- Modelled from the spec: the configured duplicate policy
`patient_record_duplicate_action` ∈ \x7bskip, overwrite, error\x7d (section 6). -/
inductive DupAction where
  | skip
  | overwrite
  | error
deriving DecidableEq, Repr

/-- Modelled from the spec: the error taxonomy of section 7 plus the
failure of resolving an environment id (section 4.2 step 1) and the
rejection of an entry that would break the record's time ordering
(section 3 record invariant). -/
inductive StepError where
  | unknownInteraction (interaction : String)
  | unsupportedInteraction (interaction : String)
  | duplicateRecordEntry
  | unknownEnvironment (environment_id : Nat)
  | nonMonotonicTime
deriving DecidableEq, Repr

/-- Duplicate detection keys on (patient_time, environment_id,
interactions), per section 7 of the spec. -/
def sameKey (a b : PatientRecordEntry) : Bool :=
  a.patient_time == b.patient_time
    && a.environment_id == b.environment_id
    && a.interactions == b.interactions

/-- Replace the first entry with the same duplicate key by the new entry,
in place (duplicate policy `overwrite`). -/
def overwriteFirst (e : PatientRecordEntry) :
    List PatientRecordEntry → List PatientRecordEntry
  | [] => []
  | x :: xs => if sameKey x e then e :: xs else x :: overwriteFirst e xs

/-- Times of the record entries, in record order. -/
def patientTimes (r : List PatientRecordEntry) : List Nat :=
  r.map fun e => e.patient_time

/-- Boolean non-decreasing check over a list of times. -/
def nonDecr : List Nat → Bool
  | [] => true
  | [_] => true
  | a :: b :: rest => decide (a ≤ b) && nonDecr (b :: rest)

/-- Time of the last record entry (0 for the empty record). -/
def lastTime (r : List PatientRecordEntry) : Nat :=
  (patientTimes r).getLast?.getD 0

/-- How a record entry was placed into the record. -/
inductive AddMode where
  | appended
  | skipped
  | overwritten
deriving DecidableEq, Repr

/-- Modelled from the spec: adding one entry to the patient record, carried
by the missing `patient_abm.agent.patient` update method.  A duplicate
(same patient_time + environment_id + interactions as an existing entry) is
resolved per the configured duplicate policy: dropped under `skip`,
replaced in place under `overwrite`, `DuplicateRecordEntryError` under
`error` (section 7).  A fresh entry is appended, after validating that it
keeps the record's `patient_time` sequence non-decreasing (section 3
record invariant; the changelog records that validation on new records was
added). -/
def addRecordEntry (dup : DupAction) (r : List PatientRecordEntry)
    (e : PatientRecordEntry) :
    Except StepError (List PatientRecordEntry × AddMode) :=
  if r.any fun x => sameKey x e then
    match dup with
    | .skip => .ok (r, .skipped)
    | .overwrite => .ok (overwriteFirst e r, .overwritten)
    | .error => .error .duplicateRecordEntry
  else if lastTime r ≤ e.patient_time then
    .ok (r ++ [e], .appended)
  else
    .error .nonMonotonicTime

/-- Ordered visits of one patient in an environment's history (first
matching key; empty when the patient never visited). -/
def lookupHistory (pid : Nat) : List (Nat × List Visit) → List Visit
  | [] => []
  | kv :: rest => if kv.1 == pid then kv.2 else lookupHistory pid rest

/-- Append one visit to a patient's visit list in a history mapping,
creating the patient's slot when absent. -/
def addVisit (pid : Nat) (v : Visit) :
    List (Nat × List Visit) → List (Nat × List Visit)
  | [] => [(pid, [v])]
  | kv :: rest =>
    if kv.1 == pid then (kv.1, kv.2 ++ [v]) :: rest
    else kv :: addVisit pid v rest

/-- Modelled from the spec: section 4.2 step 4 — a freshly accepted entry
is applied "to the relevant Environment's `patient_interaction_history`
(only if `environment_id` is non-sentinel)". -/
def updateEnvironments (pid : Nat) (e : PatientRecordEntry)
    (envs : List EnvironmentAgent) : List EnvironmentAgent :=
  match e.environment_id with
  | none => envs
  | some eid =>
    envs.map fun env =>
      if env.environment_id == eid then
        { env with
            patient_interaction_history :=
              addVisit pid (toVisit e) env.patient_interaction_history }
      else env

/-- Set-like merge of a delta list into an existing list. -/
def mergeList (xs new : List String) : List String :=
  new.foldl (fun acc y => if y ∈ acc then acc else acc ++ [y]) xs

/-- Modelled from the spec: section 4.2 step 4 — merge the entry's
condition/medication/action deltas into the patient and update `alive`. -/
def applyEffects (p : PatientAgent) (e : PatientRecordEntry) : PatientAgent :=
  { p with
      conditions := mergeList p.conditions e.new_conditions,
      medications := mergeList p.medications e.new_medications,
      actions := mergeList p.actions e.new_actions,
      alive := p.alive && !e.death }

/-- Modelled from the spec: applying one accepted record entry to the
patient and the environment set (section 4.2 step 4).  A skipped duplicate
leaves both untouched; an overwritten duplicate replaces the record entry
in place (the visit projection is key-equal, so histories already agree);
a fresh entry is appended to the record and, when its `environment_id` is
non-sentinel, a visit is appended to that environment's history. -/
def applyEntry (dup : DupAction) (p : PatientAgent)
    (envs : List EnvironmentAgent) (e : PatientRecordEntry) :
    Except StepError (PatientAgent × List EnvironmentAgent) :=
  match addRecordEntry dup p.record e with
  | .error err => .error err
  | .ok (_, .skipped) => .ok (p, envs)
  | .ok (r, .overwritten) => .ok ({ applyEffects p e with record := r }, envs)
  | .ok (r, .appended) =>
    .ok ({ applyEffects p e with record := r },
      updateEnvironments p.patient_id e envs)

/-- Modelled from the spec: applying all accepted entries of one step in
order, failing on the first error. -/
def applyEntries (dup : DupAction) (p : PatientAgent)
    (envs : List EnvironmentAgent) :
    List PatientRecordEntry →
      Except StepError (PatientAgent × List EnvironmentAgent)
  | [] => .ok (p, envs)
  | e :: rest =>
    match applyEntry dup p envs e with
    | .error err => .error err
    | .ok (p2, envs2) => applyEntries dup p2 envs2 rest

/-- Modelled from the spec: an interaction handler resolved by the
dispatcher is "capable of producing effect data" for the current
(Patient, Environment) pair (section 4.1). -/
def InteractionHandler : Type :=
  PatientAgent → EnvironmentAgent → List PatientRecordEntry

/-- Lookup of an interaction identifier in the handler mapping supplied by
the intelligence layer. -/
def lookupHandler : List (String × InteractionHandler) → String →
    Option InteractionHandler
  | [], _ => none
  | kf :: rest, iid => if kf.1 == iid then some kf.2 else lookupHandler rest iid

/-- Modelled from the spec: the Interaction Dispatcher (section 4.1).  It
validates that the identifier is present in the handler mapping
(`UnknownInteractionError` otherwise) and declared by the target
Environment (`UnsupportedInteractionError` otherwise), and resolves it to
its handler. -/
def dispatch (mapper : List (String × InteractionHandler))
    (env : EnvironmentAgent) (iid : String) :
    Except StepError InteractionHandler :=
  match lookupHandler mapper iid with
  | none => .error (.unknownInteraction iid)
  | some f =>
    if iid ∈ env.interactions then .ok f
    else .error (.unsupportedInteraction iid)

/-- Validation of a list of proposed interaction identifiers against the
current environment, via the dispatcher; returns the first error. -/
def validateInteractions (mapper : List (String × InteractionHandler))
    (env : EnvironmentAgent) : List String → Option StepError
  | [] => none
  | iid :: rest =>
    match dispatch mapper env iid with
    | .error e => some e
    | .ok _ => validateInteractions mapper env rest

/-- Modelled from the spec: section 4.2 step 3 — validate each proposed
interaction of each proposed entry against the dispatcher before anything
is applied; the whole step is rejected on the first invalid one. -/
def validateStep (mapper : List (String × InteractionHandler))
    (env : EnvironmentAgent) : List PatientRecordEntry → Option StepError
  | [] => none
  | e :: rest =>
    match validateInteractions mapper env e.interactions with
    | some err => some err
    | none => validateStep mapper env rest

/-- Modelled from the spec: the four run states of the simulation loop
(section 4.2). -/
inductive RunState where
  | RUNNING
  | STOPPED_CONDITION
  | STOPPED_DEATH
  | STOPPED_HARD_LIMIT
deriving DecidableEq, Repr

/-- Modelled from the spec: the intelligence function contract
(section 6): `(patient_state, environment_state) ->
(list[PatientRecordEntry], next_environment_id)`. -/
def Intelligence : Type :=
  PatientAgent → EnvironmentAgent → List PatientRecordEntry × Nat

/-- Modelled from the spec: the configuration parameters consumed by one
run (section 6) that the step loop reads: the handler mapping, the
intelligence function, the declarative stopping condition (a predicate of
the running aggregate — step count and patient —, section 4.3), the
`hard_stop` fail-safe and the duplicate policy. -/
structure SimConfig where
  interaction_mapper : List (String × InteractionHandler)
  intelligence : Intelligence
  stopping_condition : Nat → PatientAgent → Bool
  hard_stop : Nat
  patient_record_duplicate_action : DupAction

/-- Modelled from the spec: the ephemeral state of one simulation run
(section 3): the patient, this run's own environment copies, the current
environment pointer, the step counter and the loop state.  A step error
(section 7) is surfaced in `error`; the run does not continue past it. -/
structure SimState where
  patient : PatientAgent
  environments : List EnvironmentAgent
  currentEnvId : Nat
  stepCount : Nat
  runState : RunState
  error : Option StepError
deriving DecidableEq, Repr

/-- Resolve the current environment from its id (section 4.2 step 1). -/
def findEnv (envs : List EnvironmentAgent) (eid : Nat) :
    Option EnvironmentAgent :=
  envs.find? fun env => env.environment_id == eid

/-- Modelled from the spec: one step of the simulation loop (section 4.2,
steps 1–7), carried by the missing `patient_abm.simulation.run` module.
The current environment is resolved, the intelligence function proposes
entries and the next environment, the proposed interactions are validated,
and only then are the entries applied; any error leaves the state
untouched apart from recording the error (all-or-nothing apply,
section 7).  After a successful apply, death is checked first, then the
configured stopping condition (the precedence of section 9). -/
def simStep (cfg : SimConfig) (s : SimState) : SimState :=
  match findEnv s.environments s.currentEnvId with
  | none => { s with error := some (.unknownEnvironment s.currentEnvId) }
  | some env =>
    match validateStep cfg.interaction_mapper env
        (cfg.intelligence s.patient env).1 with
    | some err => { s with error := some err }
    | none =>
      match applyEntries cfg.patient_record_duplicate_action
          s.patient s.environments (cfg.intelligence s.patient env).1 with
      | .error err => { s with error := some err }
      | .ok (p2, envs2) =>
        { patient := p2,
          environments := envs2,
          currentEnvId := (cfg.intelligence s.patient env).2,
          stepCount := s.stepCount + 1,
          runState :=
            if p2.alive then
              if cfg.stopping_condition (s.stepCount + 1) p2 then
                .STOPPED_CONDITION
              else .RUNNING
            else .STOPPED_DEATH,
          error := none }

/-- Modelled from the spec: the fuel-indexed loop.  While the run is
`RUNNING` and error-free, the `hard_stop` fail-safe is checked (reaching
it transitions to `STOPPED_HARD_LIMIT`, section 4.2 step 6) and otherwise
one step is taken. -/
def runSim (cfg : SimConfig) : Nat → SimState → SimState
  | 0, s => s
  | fuel + 1, s =>
    if s.runState = .RUNNING ∧ s.error = none then
      if cfg.hard_stop ≤ s.stepCount then
        { s with runState := .STOPPED_HARD_LIMIT }
      else runSim cfg fuel (simStep cfg s)
    else s

/-- Modelled from the spec: one patient's whole run
(`patient_abm.simulation.run.run_patient_simulation`, invoked from the
notebook): start `RUNNING` from the configured initial environment with an
empty step counter, and iterate; `hard_stop + 1` iterations always
suffice, because `hard_stop` bounds the number of applied steps. -/
def run_patient_simulation (cfg : SimConfig) (patient : PatientAgent)
    (environments : List EnvironmentAgent)
    (initial_environment_id : Nat) : SimState :=
  runSim cfg (cfg.hard_stop + 1)
    { patient := patient,
      environments := environments,
      currentEnvId := initial_environment_id,
      stepCount := 0,
      runState := .RUNNING,
      error := none }

/-- Modelled from the spec: the resource bodies of the exported
clinical-record bundle (section 4.4): the patient demographic resource,
attached once, and one event resource per record entry, in chronological
record order.  Freshly generated identifiers are kept outside this type. -/
inductive FhirResource where
  | patient_resource (patient_id : Nat) (gender : String) (birth_date : Nat)
      (name : String)
  | entry_resource (patient_time : Nat) (environment_id : Option Nat)
      (interactions : List String) (new_conditions : List String)
      (new_medications : List String) (new_actions : List String)
      (death : Bool)
deriving DecidableEq, Repr

/-- One bundle entry: a freshly generated identifier and its resource. -/
structure BundleEntry where
  full_url : String
  resource : FhirResource
deriving DecidableEq, Repr

/-- The exported clinical-record bundle. -/
structure Bundle where
  entry : List BundleEntry
deriving DecidableEq, Repr

/-- Resources of the finished patient: demographics once, then one event
resource per record entry in record order. -/
def resourcesOf (p : PatientAgent) : List FhirResource :=
  .patient_resource p.patient_id p.gender p.birth_date p.name ::
    p.record.map fun e =>
      .entry_resource e.patient_time e.environment_id e.interactions
        e.new_conditions e.new_medications e.new_actions e.death

/-- Attach freshly generated identifiers (drawn from a generator indexed by
position) to a list of resources. -/
def attachIds (genId : Nat → String) (n : Nat) :
    List FhirResource → List BundleEntry
  | [] => []
  | r :: rest => { full_url := genId n, resource := r } :: attachIds genId (n + 1) rest

/-- Modelled from the spec: the Record Exporter (section 4.4), carried by
the missing `patient_abm.data_handler.fhir` module: fold the finished
patient record into a bundle, the demographic resource once and one
resource per entry in order, each entry receiving a freshly generated
identifier from the supplied generator. -/
def patient_record_to_bundle (genId : Nat → String) (p : PatientAgent) :
    Bundle :=
  { entry := attachIds genId 0 (resourcesOf p) }

/-- Bundle structure with the generated identifiers ignored. -/
def stripIds (b : Bundle) : List FhirResource :=
  b.entry.map fun be => be.resource

/-- Per-patient environment copies, translated from the notebook:
`environments_copies = [copy.deepcopy(environments) for _ in
range(len(patients))]` — each of the `n` runs gets its own independent
copy of the environment set (deep copy is plain value copy in this pure
embedding). -/
def environments_copies (environments : List EnvironmentAgent) (n : Nat) :
    List (List EnvironmentAgent) :=
  List.replicate n environments

/-- Run the simulation of the patient at index `i` on that patient's own
environment copy, writing the mutated copy back at index `i` (the
notebook's per-patient loop over `zip(patients, environments_copies,
initial_environment_ids)`). -/
def run_patient_at (cfg : SimConfig) (patients : List PatientAgent)
    (inits : List Nat) (copies : List (List EnvironmentAgent)) (i : Nat) :
    List (List EnvironmentAgent) :=
  match patients[i]?, copies[i]?, inits[i]? with
  | some p, some envs, some e0 =>
    copies.set i (run_patient_simulation cfg p envs e0).environments
  | _, _, _ => copies

/-- Environment agent classes selectable when loading a saved environment,
translated from the notebook cell defining `load_environment`. -/
inductive EnvironmentClass where
  | AandEEnvironmentAgent
  | GPEnvironmentAgent
  | EnvironmentAgentClass
deriving DecidableEq, Repr

/-- Translated from the notebook's `load_environment(path,
environment_type)`: pick `AandEEnvironmentAgent` for "a_and_e",
`GPEnvironmentAgent` for "gp", the generic `EnvironmentAgent` class
otherwise, and call that class's `load` on the path. -/
def load_environment (load : EnvironmentClass → String → EnvironmentAgent)
    (path : String) (environment_type : String) : EnvironmentAgent :=
  let environment_class :=
    if environment_type = "a_and_e" then
      EnvironmentClass.AandEEnvironmentAgent
    else if environment_type = "gp" then
      EnvironmentClass.GPEnvironmentAgent
    else
      EnvironmentClass.EnvironmentAgentClass
  load environment_class path

/-! Helper lemmas. -/

theorem simStep_error_frame (cfg : SimConfig) (s : SimState) :
    (simStep cfg s).error ≠ none →
    (simStep cfg s).patient = s.patient ∧
      (simStep cfg s).environments = s.environments ∧
      (simStep cfg s).stepCount = s.stepCount ∧
      (simStep cfg s).runState = s.runState := by
  unfold simStep
  split
  · exact fun _ => ⟨rfl, rfl, rfl, rfl⟩
  · split
    · exact fun _ => ⟨rfl, rfl, rfl, rfl⟩
    · split
      · exact fun _ => ⟨rfl, rfl, rfl, rfl⟩
      · exact fun h => absurd rfl h

theorem simStep_ok_stepCount (cfg : SimConfig) (s : SimState) :
    (simStep cfg s).error = none →
    (simStep cfg s).stepCount = s.stepCount + 1 := by
  unfold simStep
  split
  · exact fun h => absurd h (by simp)
  · split
    · exact fun h => absurd h (by simp)
    · split
      · exact fun h => absurd h (by simp)
      · exact fun _ => rfl

theorem simStep_stepCount_le (cfg : SimConfig) (s : SimState) :
    (simStep cfg s).stepCount ≤ s.stepCount + 1 := by
  cases h : (simStep cfg s).error with
  | none => exact le_of_eq (simStep_ok_stepCount cfg s h)
  | some err =>
    have := simStep_error_frame cfg s (by simp [h])
    omega

theorem runSim_not_running (cfg : SimConfig) (fuel : Nat) (s : SimState)
    (h : s.runState ≠ .RUNNING) : runSim cfg fuel s = s := by
  cases fuel with
  | zero => rfl
  | succ n =>
    unfold runSim
    rw [if_neg]
    exact fun hc => h hc.1

theorem runSim_error (cfg : SimConfig) (fuel : Nat) (s : SimState)
    (h : s.error ≠ none) : runSim cfg fuel s = s := by
  cases fuel with
  | zero => rfl
  | succ n =>
    unfold runSim
    rw [if_neg]
    exact fun hc => h hc.2

theorem runSim_stepCount_le (cfg : SimConfig) :
    ∀ (fuel : Nat) (s : SimState), s.stepCount ≤ cfg.hard_stop →
      (runSim cfg fuel s).stepCount ≤ cfg.hard_stop := by
  intro fuel
  induction fuel with
  | zero => exact fun s h => h
  | succ n ih =>
    intro s h
    unfold runSim
    split
    · split
      · exact h
      · next hlt =>
        refine ih _ ?_
        have h1 := simStep_stepCount_le cfg s
        omega
    · exact h

theorem runSim_halts (cfg : SimConfig) :
    ∀ (fuel : Nat) (s : SimState), cfg.hard_stop ≤ s.stepCount + fuel →
      (runSim cfg (fuel + 1) s).error = none →
      (runSim cfg (fuel + 1) s).runState ≠ .RUNNING := by
  intro fuel
  induction fuel with
  | zero =>
    intro s hbound
    unfold runSim
    split
    · next hrun =>
      split
      · intro _
        simp
      · next hlt => omega
    · next hrun =>
      intro herr
      exact fun hr => hrun ⟨hr, herr⟩
  | succ n ih =>
    intro s hbound
    rw [runSim]
    split
    · next hrun =>
      split
      · intro _
        simp
      · next hlt =>
        cases herr : (simStep cfg s).error with
        | some err =>
          rw [runSim_error cfg (n + 1) _ (by simp [herr])]
          intro hnone
          exact absurd herr (by simp [hnone])
        | none =>
          have hc := simStep_ok_stepCount cfg s herr
          exact ih (simStep cfg s) (by omega)
    · next hrun =>
      intro herr
      exact fun hr => hrun ⟨hr, herr⟩

/-! Example agents and configurations used by the witness theorems. -/

def exHandler : InteractionHandler := fun _ _ => []

def exPatient : PatientAgent :=
  { patient_id := 1, gender := "female", birth_date := 0, name := "Lois",
    alive := true, conditions := [], medications := [], actions := [],
    record := [] }

def exEnv : EnvironmentAgent :=
  { environment_id := 0, name := "gp", interactions := ["check"],
    patient_present := true, patient_interaction_history := [] }

def exEntry (t : Nat) : PatientRecordEntry :=
  { patient_time := t, environment_id := some 0, interactions := ["check"],
    new_conditions := [], new_medications := [], new_actions := [],
    death := false }

def exCfg : SimConfig :=
  { interaction_mapper := [("check", exHandler)],
    intelligence := fun p _ => ([exEntry p.record.length], 0),
    stopping_condition := fun _ _ => false,
    hard_stop := 2,
    patient_record_duplicate_action := .skip }

def exCfgDeath : SimConfig :=
  { exCfg with
      intelligence := fun p _ =>
        ([{ exEntry p.record.length with death := true }], 0) }

def exCfgBad : SimConfig :=
  { exCfg with
      intelligence := fun p _ =>
        ([{ exEntry p.record.length with interactions := ["zap"] }], 0) }

def exInit : SimState :=
  { patient := exPatient, environments := [exEnv], currentEnvId := 0,
    stepCount := 0, runState := .RUNNING, error := none }

def exLoad : EnvironmentClass → String → EnvironmentAgent :=
  fun c path => { exEnv with name := path ++ reprStr c }

def exStopped : SimState :=
  { exInit with runState := .STOPPED_DEATH }

theorem sameKey_fields (a b : PatientRecordEntry)
    (h : sameKey a b = true) :
    a.patient_time = b.patient_time ∧
      a.environment_id = b.environment_id ∧
      a.interactions = b.interactions := by
  simpa [sameKey, Bool.and_eq_true, and_assoc] using h

theorem overwriteFirst_set (e : PatientRecordEntry) :
    ∀ (r : List PatientRecordEntry),
      r.any (fun x => sameKey x e) = true →
      ∃ j, j < r.length ∧ overwriteFirst e r = r.set j e := by
  intro r
  induction r with
  | nil => intro h; simp at h
  | cons x xs ih =>
    intro h
    by_cases hk : sameKey x e
    · exact ⟨0, by simp, by simp [overwriteFirst, hk]⟩
    · have hany : xs.any (fun y => sameKey y e) = true := by
        rcases List.any_eq_true.mp h with ⟨y, hy, hky⟩
        cases hy with
        | head => exact absurd hky hk
        | tail _ hmem => exact List.any_eq_true.mpr ⟨y, hmem, hky⟩
      obtain ⟨j, hj, hset⟩ := ih hany
      refine ⟨j + 1, by simpa using Nat.succ_lt_succ hj, ?_⟩
      simp [overwriteFirst, hk, hset]

theorem addRecordEntry_shape (dup : DupAction)
    (r : List PatientRecordEntry) (e : PatientRecordEntry)
    (r2 : List PatientRecordEntry) (m : AddMode)
    (h : addRecordEntry dup r e = .ok (r2, m)) :
    (m = .appended ∧ r2 = r ++ [e] ∧
        lastTime r ≤ e.patient_time ∧
        r.any (fun x => sameKey x e) = false) ∨
      (m = .skipped ∧ r2 = r) ∨
      (m = .overwritten ∧ r2 = overwriteFirst e r ∧
        r.any (fun x => sameKey x e) = true) := by
  unfold addRecordEntry at h
  split at h
  · next hany =>
    cases dup with
    | skip => cases h; exact Or.inr (Or.inl ⟨rfl, rfl⟩)
    | overwrite => cases h; exact Or.inr (Or.inr ⟨rfl, rfl, hany⟩)
    | error => simp at h
  · next hany =>
    split at h
    · next hle => cases h; exact Or.inl ⟨rfl, rfl, hle, by simpa using hany⟩
    · simp at h

/-! Claim theorems. -/

/-- C4: step application is atomic — if any error is raised while
validating or applying a step, the Patient object and every Environment
object are left exactly as they were before the step began; no partial
effects are applied. -/
theorem step_application_atomic (cfg : SimConfig) (s : SimState)
    (h : (simStep cfg s).error ≠ none) :
    (simStep cfg s).patient = s.patient ∧
      (simStep cfg s).environments = s.environments :=
  ⟨(simStep_error_frame cfg s h).1, (simStep_error_frame cfg s h).2.1⟩

theorem step_application_atomic_witness :
    (simStep exCfgBad exInit).error ≠ none ∧
      (simStep exCfgBad exInit).patient = exInit.patient ∧
      (simStep exCfgBad exInit).environments = exInit.environments :=
  ⟨by decide, step_application_atomic exCfgBad exInit (by decide)⟩

/-- C5: dispatching an interaction identifier that is not registered in
the handler mapping raises UnknownInteractionError; one the Environment
does not declare raises UnsupportedInteractionError; and a step failing
with either error leaves the Patient and Environment state untouched. -/
theorem dispatch_validation_errors :
    (∀ (mapper : List (String × InteractionHandler))
        (env : EnvironmentAgent) (iid : String),
        lookupHandler mapper iid = none →
        dispatch mapper env iid = .error (.unknownInteraction iid)) ∧
    (∀ (mapper : List (String × InteractionHandler))
        (env : EnvironmentAgent) (iid : String) (f : InteractionHandler),
        lookupHandler mapper iid = some f → iid ∉ env.interactions →
        dispatch mapper env iid = .error (.unsupportedInteraction iid)) ∧
    (∀ (cfg : SimConfig) (s : SimState) (iid : String),
        ((simStep cfg s).error = some (.unknownInteraction iid) ∨
          (simStep cfg s).error = some (.unsupportedInteraction iid)) →
        (simStep cfg s).patient = s.patient ∧
          (simStep cfg s).environments = s.environments) := by
  refine ⟨?_, ?_, ?_⟩
  · intro mapper env iid h
    unfold dispatch
    rw [h]
  · intro mapper env iid f h hnotin
    unfold dispatch
    rw [h]
    exact if_neg hnotin
  · intro cfg s iid h
    have hne : (simStep cfg s).error ≠ none := by
      cases h with
      | inl h => simp [h]
      | inr h => simp [h]
    exact ⟨(simStep_error_frame cfg s hne).1,
      (simStep_error_frame cfg s hne).2.1⟩

theorem dispatch_validation_errors_witness :
    dispatch [] exEnv "zap" = .error (.unknownInteraction "zap") ∧
      dispatch [("zap", exHandler)] exEnv "zap" =
        .error (.unsupportedInteraction "zap") ∧
      ((simStep exCfgBad exInit).patient = exInit.patient ∧
        (simStep exCfgBad exInit).environments = exInit.environments) :=
  ⟨dispatch_validation_errors.1 [] exEnv "zap" rfl,
   dispatch_validation_errors.2.1 [("zap", exHandler)] exEnv "zap"
     exHandler rfl (by decide),
   dispatch_validation_errors.2.2 exCfgBad exInit "zap"
     (Or.inl (by decide))⟩

/-- C7: if the patient's alive flag becomes false during a step, the run
transitions to STOPPED_DEATH regardless of the configured stopping
condition, and once the run has left RUNNING no further steps are ever
applied. -/
theorem death_stops_run :
    (∀ (cfg : SimConfig) (s : SimState), (simStep cfg s).error = none →
        (simStep cfg s).patient.alive = false →
        (simStep cfg s).runState = .STOPPED_DEATH) ∧
    (∀ (cfg : SimConfig) (fuel : Nat) (s : SimState),
        s.runState ≠ .RUNNING → runSim cfg fuel s = s) := by
  constructor
  · intro cfg s
    unfold simStep
    split
    · exact fun h => absurd h (by simp)
    · split
      · exact fun h => absurd h (by simp)
      · split
        · exact fun h => absurd h (by simp)
        · intro _ halive
          simp only at halive ⊢
          rw [halive]
          simp
  · exact fun cfg fuel s h => runSim_not_running cfg fuel s h

theorem death_stops_run_witness :
    (simStep exCfgDeath exInit).runState = .STOPPED_DEATH ∧
      runSim exCfg 5 exStopped = exStopped :=
  ⟨death_stops_run.1 exCfgDeath exInit (by decide) (by decide),
   death_stops_run.2 exCfg 5 exStopped (by decide)⟩

theorem attachIds_resource (g : Nat → String) :
    ∀ (l : List FhirResource) (n : Nat),
      (attachIds g n l).map (fun be => be.resource) = l := by
  intro l
  induction l with
  | nil => intro n; rfl
  | cons r rest ih =>
    intro n
    simp [attachIds, ih]

/-- C8: record export is deterministic — exporting the same finished
Patient state through any two identifier generators yields structurally
identical bundles once the freshly generated identifiers are ignored. -/
theorem bundle_deterministic (g1 g2 : Nat → String) (p : PatientAgent) :
    stripIds (patient_record_to_bundle g1 p) =
      stripIds (patient_record_to_bundle g2 p) := by
  unfold stripIds patient_record_to_bundle
  rw [attachIds_resource, attachIds_resource]

/-- C9: each patient's run operates on its own copy of the environment
set: running the simulation of the patient at index i rewrites only the
copy at index i, leaving every other patient's environment copies — in
particular their patient_interaction_history mappings — unchanged. -/
theorem runs_independent (cfg : SimConfig) (patients : List PatientAgent)
    (inits : List Nat) (copies : List (List EnvironmentAgent)) (i j : Nat)
    (hne : j ≠ i) :
    (run_patient_at cfg patients inits copies i)[j]? = copies[j]? ∧
      ((run_patient_at cfg patients inits copies i)[j]?).map
          (fun c => c.map fun env => env.patient_interaction_history) =
        (copies[j]?).map
          (fun c => c.map fun env => env.patient_interaction_history) := by
  have h : (run_patient_at cfg patients inits copies i)[j]? = copies[j]? := by
    unfold run_patient_at
    split
    · exact List.getElem?_set_ne fun hij => hne hij.symm
    · rfl
  exact ⟨h, by rw [h]⟩

theorem runs_independent_witness :
    (run_patient_at exCfg [exPatient, exPatient] [0, 0]
        (environments_copies [exEnv] 2) 0)[1]? =
      (environments_copies [exEnv] 2)[1]? :=
  (runs_independent exCfg [exPatient, exPatient] [0, 0]
    (environments_copies [exEnv] 2) 0 1 (by decide)).1

theorem nonDecr_append (t : Nat) :
    ∀ (ts : List Nat), nonDecr ts = true → ts.getLast?.getD 0 ≤ t →
      nonDecr (ts ++ [t]) = true := by
  intro ts
  induction ts with
  | nil => intro _ _; rfl
  | cons a ts ih =>
    cases ts with
    | nil =>
      intro _ hle
      simp only [List.getLast?_singleton, Option.getD_some] at hle
      simpa [nonDecr] using hle
    | cons b rest =>
      intro hnd hle
      have h1 : a ≤ b ∧ nonDecr (b :: rest) = true := by
        simpa [nonDecr, Bool.and_eq_true] using hnd
      have h2 := ih h1.2 (by simpa [List.getLast?_cons_cons] using hle)
      rw [List.cons_append]
      have : nonDecr (a :: ((b :: rest) ++ [t])) =
          (decide (a ≤ b) && nonDecr ((b :: rest) ++ [t])) := by
        rw [List.cons_append]
        rfl
      rw [this, h2]
      simp [h1.1]

theorem patientTimes_append (r : List PatientRecordEntry)
    (e : PatientRecordEntry) :
    patientTimes (r ++ [e]) = patientTimes r ++ [e.patient_time] := by
  simp [patientTimes]

theorem patientTimes_overwriteFirst (e : PatientRecordEntry) :
    ∀ (r : List PatientRecordEntry),
      patientTimes (overwriteFirst e r) = patientTimes r := by
  intro r
  induction r with
  | nil => rfl
  | cons x xs ih =>
    by_cases hk : sameKey x e
    · have ht := (sameKey_fields x e hk).1
      simp [overwriteFirst, hk, patientTimes, ht]
    · simp only [overwriteFirst, if_neg hk]
      simp only [patientTimes, List.map_cons] at ih ⊢
      rw [ih]

theorem addRecordEntry_nonDecr (dup : DupAction)
    (r : List PatientRecordEntry) (e : PatientRecordEntry)
    (r2 : List PatientRecordEntry) (m : AddMode)
    (hnd : nonDecr (patientTimes r) = true)
    (h : addRecordEntry dup r e = .ok (r2, m)) :
    nonDecr (patientTimes r2) = true := by
  rcases addRecordEntry_shape dup r e r2 m h with
    ⟨_, hr, hle, _⟩ | ⟨_, hr⟩ | ⟨_, hr, _⟩
  · rw [hr, patientTimes_append]
    exact nonDecr_append e.patient_time (patientTimes r) hnd hle
  · rw [hr]; exact hnd
  · rw [hr, patientTimes_overwriteFirst]; exact hnd

theorem applyEntry_record_nonDecr (dup : DupAction) (p : PatientAgent)
    (envs : List EnvironmentAgent) (e : PatientRecordEntry)
    (p2 : PatientAgent) (envs2 : List EnvironmentAgent)
    (h : applyEntry dup p envs e = .ok (p2, envs2))
    (hnd : nonDecr (patientTimes p.record) = true) :
    nonDecr (patientTimes p2.record) = true := by
  unfold applyEntry at h
  split at h
  · simp at h
  · next heq => cases h; exact hnd
  · next r heq =>
    cases h
    exact addRecordEntry_nonDecr _ _ _ _ _ hnd heq
  · next r heq =>
    cases h
    exact addRecordEntry_nonDecr _ _ _ _ _ hnd heq

theorem applyEntries_record_nonDecr (dup : DupAction) :
    ∀ (entries : List PatientRecordEntry) (p : PatientAgent)
      (envs : List EnvironmentAgent) (p2 : PatientAgent)
      (envs2 : List EnvironmentAgent),
      applyEntries dup p envs entries = .ok (p2, envs2) →
      nonDecr (patientTimes p.record) = true →
      nonDecr (patientTimes p2.record) = true := by
  intro entries
  induction entries with
  | nil =>
    intro p envs p2 envs2 h hnd
    simp only [applyEntries] at h
    cases h
    exact hnd
  | cons e rest ih =>
    intro p envs p2 envs2 h hnd
    simp only [applyEntries] at h
    split at h
    · simp at h
    · next p1 envs1 heq =>
      exact ih p1 envs1 p2 envs2 h
        (applyEntry_record_nonDecr dup p envs e p1 envs1 heq hnd)

theorem simStep_record_nonDecr (cfg : SimConfig) (s : SimState)
    (hnd : nonDecr (patientTimes s.patient.record) = true) :
    nonDecr (patientTimes (simStep cfg s).patient.record) = true := by
  unfold simStep
  split
  · exact hnd
  · split
    · exact hnd
    · split
      · exact hnd
      · next p2 envs2 heq =>
        exact applyEntries_record_nonDecr _ _ _ _ _ _ heq hnd

theorem runSim_preserve (cfg : SimConfig) (P : SimState → Prop)
    (hstep : ∀ s, P s → P (simStep cfg s))
    (hflip : ∀ s, P s →
      P { s with runState := RunState.STOPPED_HARD_LIMIT }) :
    ∀ (fuel : Nat) (s : SimState), P s → P (runSim cfg fuel s) := by
  intro fuel
  induction fuel with
  | zero => exact fun s hp => hp
  | succ n ih =>
    intro s hp
    unfold runSim
    split
    · split
      · exact hflip s hp
      · exact ih _ (hstep s hp)
    · exact hp

/-- Append-only evolution of a record: no existing entry is removed or
reordered — every original position is still there, holding either the
same entry or (under the overwrite duplicate policy) a key-equal
replacement put in its place. -/
def recordExtends (r r2 : List PatientRecordEntry) : Prop :=
  r.length ≤ r2.length ∧
    ∀ (i : Nat) (h : i < r.length) (h2 : i < r2.length),
      r2[i] = r[i] ∨ sameKey r[i] r2[i] = true

theorem recordExtends_refl (r : List PatientRecordEntry) :
    recordExtends r r :=
  ⟨Nat.le_refl _, fun _ _ _ => Or.inl rfl⟩

theorem sameKey_trans (a b c : PatientRecordEntry)
    (h1 : sameKey a b = true) (h2 : sameKey b c = true) :
    sameKey a c = true := by
  obtain ⟨t1, e1, i1⟩ := sameKey_fields a b h1
  obtain ⟨t2, e2, i2⟩ := sameKey_fields b c h2
  simp [sameKey, t1.trans t2, e1.trans e2, i1.trans i2]

theorem recordExtends_trans (r1 r2 r3 : List PatientRecordEntry)
    (h12 : recordExtends r1 r2) (h23 : recordExtends r2 r3) :
    recordExtends r1 r3 := by
  obtain ⟨hl12, hi12⟩ := h12
  obtain ⟨hl23, hi23⟩ := h23
  refine ⟨hl12.trans hl23, fun i h1 h3 => ?_⟩
  have h2 : i < r2.length := Nat.lt_of_lt_of_le h1 hl12
  rcases hi12 i h1 h2 with he | hk
  · rcases hi23 i h2 h3 with he2 | hk2
    · exact Or.inl (he2.trans he)
    · rw [he] at hk2
      exact Or.inr hk2
  · rcases hi23 i h2 h3 with he2 | hk2
    · rw [← he2] at hk
      exact Or.inr hk
    · exact Or.inr (sameKey_trans _ _ _ hk hk2)

theorem recordExtends_append (r : List PatientRecordEntry)
    (e : PatientRecordEntry) : recordExtends r (r ++ [e]) := by
  refine ⟨by simp, fun i h h2 => Or.inl ?_⟩
  exact List.getElem_append_left h

theorem length_overwriteFirst (e : PatientRecordEntry) :
    ∀ (r : List PatientRecordEntry),
      (overwriteFirst e r).length = r.length := by
  intro r
  induction r with
  | nil => rfl
  | cons x xs ih =>
    by_cases hk : sameKey x e
    · simp [overwriteFirst, hk]
    · simp only [overwriteFirst, if_neg hk, List.length_cons, ih]

theorem recordExtends_overwriteFirst (e : PatientRecordEntry) :
    ∀ (r : List PatientRecordEntry), recordExtends r (overwriteFirst e r) := by
  intro r
  induction r with
  | nil => exact recordExtends_refl _
  | cons x xs ih =>
    refine ⟨Nat.le_of_eq (length_overwriteFirst e (x :: xs)).symm,
      fun i h h2 => ?_⟩
    by_cases hk : sameKey x e
    · cases i with
      | zero =>
        refine Or.inr ?_
        have : overwriteFirst e (x :: xs) = e :: xs := by
          simp [overwriteFirst, hk]
        simp only [this, List.getElem_cons_zero]
        exact hk
      | succ j =>
        refine Or.inl ?_
        have : overwriteFirst e (x :: xs) = e :: xs := by
          simp [overwriteFirst, hk]
        simp only [this] at h2 ⊢
        simp
    · have hrw : overwriteFirst e (x :: xs) = x :: overwriteFirst e xs := by
        simp [overwriteFirst, hk]
      cases i with
      | zero =>
        refine Or.inl ?_
        simp [hrw]
      | succ j =>
        have hj : j < xs.length := by simpa using h
        have hj2 : j < (overwriteFirst e xs).length := by
          rw [length_overwriteFirst]; exact hj
        have := ih.2 j hj hj2
        simp only [hrw, List.getElem_cons_succ]
        exact this

theorem applyEntry_record_extends (dup : DupAction) (p : PatientAgent)
    (envs : List EnvironmentAgent) (e : PatientRecordEntry)
    (p2 : PatientAgent) (envs2 : List EnvironmentAgent)
    (h : applyEntry dup p envs e = .ok (p2, envs2)) :
    recordExtends p.record p2.record := by
  unfold applyEntry at h
  split at h
  · simp at h
  · next heq => cases h; exact recordExtends_refl _
  · next r heq =>
    cases h
    rcases addRecordEntry_shape _ _ _ _ _ heq with
      ⟨hm, _⟩ | ⟨hm, _⟩ | ⟨_, hr, _⟩
    · exact absurd hm (by simp)
    · exact absurd hm (by simp)
    · show recordExtends p.record r
      rw [hr]
      exact recordExtends_overwriteFirst e p.record
  · next r heq =>
    cases h
    rcases addRecordEntry_shape _ _ _ _ _ heq with
      ⟨_, hr, _, _⟩ | ⟨hm, _⟩ | ⟨hm, _⟩
    · show recordExtends p.record r
      rw [hr]
      exact recordExtends_append p.record e
    · exact absurd hm (by simp)
    · exact absurd hm (by simp)

theorem applyEntries_record_extends (dup : DupAction) :
    ∀ (entries : List PatientRecordEntry) (p : PatientAgent)
      (envs : List EnvironmentAgent) (p2 : PatientAgent)
      (envs2 : List EnvironmentAgent),
      applyEntries dup p envs entries = .ok (p2, envs2) →
      recordExtends p.record p2.record := by
  intro entries
  induction entries with
  | nil =>
    intro p envs p2 envs2 h
    simp only [applyEntries] at h
    cases h
    exact recordExtends_refl _
  | cons e rest ih =>
    intro p envs p2 envs2 h
    simp only [applyEntries] at h
    split at h
    · simp at h
    · next p1 envs1 heq =>
      exact recordExtends_trans _ _ _
        (applyEntry_record_extends dup p envs e p1 envs1 heq)
        (ih p1 envs1 p2 envs2 h)

theorem simStep_record_extends (cfg : SimConfig) (s : SimState) :
    recordExtends s.patient.record (simStep cfg s).patient.record := by
  unfold simStep
  split
  · exact recordExtends_refl _
  · split
    · exact recordExtends_refl _
    · split
      · exact recordExtends_refl _
      · next p2 envs2 heq =>
        exact applyEntries_record_extends _ _ _ _ _ _ heq

theorem runSim_record_extends (cfg : SimConfig) :
    ∀ (fuel : Nat) (s : SimState),
      recordExtends s.patient.record (runSim cfg fuel s).patient.record := by
  intro fuel
  induction fuel with
  | zero => exact fun s => recordExtends_refl _
  | succ n ih =>
    intro s
    unfold runSim
    split
    · split
      · exact recordExtends_refl _
      · exact recordExtends_trans _ _ _ (simStep_record_extends cfg s)
          (ih (simStep cfg s))
    · exact recordExtends_refl _

/-- C6: for a new entry whose (patient_time, environment_id, interactions)
key equals an existing entry's key, policy skip drops the new entry
leaving the record unchanged in length and content, policy overwrite
replaces the matching entry in place so the length is unchanged but the
content updates, and policy error raises DuplicateRecordEntryError leaving
the record unchanged (no new record is produced); moreover
DuplicateRecordEntryError is raised only under the error policy. -/
theorem duplicate_policy_behaviour :
    (∀ (r : List PatientRecordEntry) (e : PatientRecordEntry),
        (∃ x ∈ r, sameKey x e = true) →
        addRecordEntry .skip r e = .ok (r, .skipped) ∧
          (∃ j, j < r.length ∧
            addRecordEntry .overwrite r e = .ok (r.set j e, .overwritten) ∧
            (r.set j e).length = r.length) ∧
          addRecordEntry .error r e = .error .duplicateRecordEntry) ∧
    (∀ (dup : DupAction) (r : List PatientRecordEntry)
        (e : PatientRecordEntry),
        addRecordEntry dup r e = .error .duplicateRecordEntry →
        dup = .error) := by
  constructor
  · intro r e hex
    have hany : r.any (fun x => sameKey x e) = true := by
      obtain ⟨x, hx, hk⟩ := hex
      exact List.any_eq_true.mpr ⟨x, hx, hk⟩
    obtain ⟨j, hj, hset⟩ := overwriteFirst_set e r hany
    refine ⟨?_, ⟨j, hj, ?_, List.length_set ..⟩, ?_⟩
    · unfold addRecordEntry
      rw [if_pos hany]
    · unfold addRecordEntry
      rw [if_pos hany, ← hset]
    · unfold addRecordEntry
      rw [if_pos hany]
  · intro dup r e h
    unfold addRecordEntry at h
    split at h
    · cases dup with
      | skip => simp at h
      | overwrite => simp at h
      | error => rfl
    · split at h
      · simp at h
      · simp at h

theorem duplicate_policy_behaviour_witness :
    (∃ x ∈ [exEntry 0], sameKey x { exEntry 0 with death := true } = true) ∧
      addRecordEntry .skip [exEntry 0] { exEntry 0 with death := true } =
        .ok ([exEntry 0], .skipped) :=
  ⟨by decide,
   (duplicate_policy_behaviour.1 [exEntry 0]
      { exEntry 0 with death := true } (by decide)).1⟩

/-- Record entries attributed to the environment with id `eid`. -/
def filterEnv (eid : Nat) (r : List PatientRecordEntry) :
    List PatientRecordEntry :=
  r.filter fun e => e.environment_id == some eid

/-- Consistency invariant between the patient record and the environment
histories: for every environment, the visits stored for this patient are
exactly, in order, the visit projections of the record entries attributed
to that environment — an order-preserving bijection. -/
def EnvConsistent (p : PatientAgent) (envs : List EnvironmentAgent) : Prop :=
  ∀ env ∈ envs,
    lookupHistory p.patient_id env.patient_interaction_history =
      (filterEnv env.environment_id p.record).map toVisit

instance instDecidableEnvConsistent (p : PatientAgent)
    (envs : List EnvironmentAgent) : Decidable (EnvConsistent p envs) :=
  inferInstanceAs (Decidable (∀ env ∈ envs,
    lookupHistory p.patient_id env.patient_interaction_history =
      (filterEnv env.environment_id p.record).map toVisit))

theorem lookupHistory_addVisit_self (pid : Nat) (v : Visit) :
    ∀ (hist : List (Nat × List Visit)),
      lookupHistory pid (addVisit pid v hist) =
        lookupHistory pid hist ++ [v] := by
  intro hist
  induction hist with
  | nil => simp [addVisit, lookupHistory]
  | cons kv rest ih =>
    by_cases hk : kv.1 == pid
    · simp [addVisit, lookupHistory, hk]
    · simp [addVisit, lookupHistory, hk, ih]

theorem filterEnv_append_match (eid : Nat) (r : List PatientRecordEntry)
    (e : PatientRecordEntry) (he : e.environment_id = some eid) :
    filterEnv eid (r ++ [e]) = filterEnv eid r ++ [e] := by
  simp [filterEnv, List.filter_append, he]

theorem filterEnv_append_nomatch (eid : Nat) (r : List PatientRecordEntry)
    (e : PatientRecordEntry) (he : (e.environment_id == some eid) = false) :
    filterEnv eid (r ++ [e]) = filterEnv eid r := by
  simp [filterEnv, List.filter_append, he]

theorem filterEnv_overwriteFirst_visits (e : PatientRecordEntry)
    (eid : Nat) :
    ∀ (r : List PatientRecordEntry),
      (filterEnv eid (overwriteFirst e r)).map toVisit =
        (filterEnv eid r).map toVisit := by
  intro r
  induction r with
  | nil => rfl
  | cons x xs ih =>
    by_cases hk : sameKey x e
    · obtain ⟨ht, he2, hi⟩ := sameKey_fields x e hk
      have hrw : overwriteFirst e (x :: xs) = e :: xs := by
        simp [overwriteFirst, hk]
      have hv : toVisit e = toVisit x := by
        simp [toVisit, ht, hi]
      rw [hrw]
      by_cases hm : (x.environment_id == some eid) = true
      · have hm2 : (e.environment_id == some eid) = true := by
          rw [← he2]; exact hm
        simp [filterEnv, List.filter_cons, hm, hm2, hv]
      · have hm3 : (x.environment_id == some eid) = false := by
          simpa using hm
        have hm2 : (e.environment_id == some eid) = false := by
          rw [← he2]; exact hm3
        simp [filterEnv, List.filter_cons, hm2, hm3]
    · have hrw : overwriteFirst e (x :: xs) = x :: overwriteFirst e xs := by
        simp [overwriteFirst, hk]
      rw [hrw]
      simp only [filterEnv] at ih ⊢
      by_cases hm : (x.environment_id == some eid) = true
      · simp [List.filter_cons, hm, ih]
      · have hm3 : (x.environment_id == some eid) = false := by
          simpa using hm
        simp [List.filter_cons, hm3, ih]

theorem applyEntry_envConsistent (dup : DupAction) (p : PatientAgent)
    (envs : List EnvironmentAgent) (e : PatientRecordEntry)
    (p2 : PatientAgent) (envs2 : List EnvironmentAgent)
    (h : applyEntry dup p envs e = .ok (p2, envs2))
    (hc : EnvConsistent p envs) : EnvConsistent p2 envs2 := by
  unfold applyEntry at h
  split at h
  · simp at h
  · next heq => cases h; exact hc
  · next r heq =>
    cases h
    rcases addRecordEntry_shape _ _ _ _ _ heq with
      ⟨hm, _⟩ | ⟨hm, _⟩ | ⟨_, hr, _⟩
    · exact absurd hm (by simp)
    · exact absurd hm (by simp)
    · intro env henv
      have hold := hc env henv
      show lookupHistory p.patient_id env.patient_interaction_history =
        (filterEnv env.environment_id r).map toVisit
      rw [hr, filterEnv_overwriteFirst_visits]
      exact hold
  · next r heq =>
    cases h
    rcases addRecordEntry_shape _ _ _ _ _ heq with
      ⟨_, hr, _, _⟩ | ⟨hm, _⟩ | ⟨hm, _⟩
    · intro env2 henv2
      show lookupHistory p.patient_id env2.patient_interaction_history =
        (filterEnv env2.environment_id r).map toVisit
      unfold updateEnvironments at henv2
      cases hei : e.environment_id with
      | none =>
        rw [hei] at henv2
        have hold := hc env2 henv2
        rw [hr, filterEnv_append_nomatch _ _ _ (by simp [hei])]
        exact hold
      | some eid =>
        rw [hei] at henv2
        obtain ⟨env, henv, hmap⟩ := List.mem_map.mp henv2
        have hold := hc env henv
        by_cases hmatch : (env.environment_id == eid) = true
        · rw [if_pos hmatch] at hmap
          rw [← hmap]
          have heid : env.environment_id = eid := by simpa using hmatch
          show lookupHistory p.patient_id
              (addVisit p.patient_id (toVisit e)
                env.patient_interaction_history) =
            (filterEnv env.environment_id r).map toVisit
          rw [lookupHistory_addVisit_self, hr,
            filterEnv_append_match env.environment_id p.record e
              (by rw [hei, heid]),
            List.map_append, hold]
          rfl
        · rw [if_neg hmatch] at hmap
          rw [← hmap]
          show lookupHistory p.patient_id env.patient_interaction_history =
            (filterEnv env.environment_id r).map toVisit
          have hne : (e.environment_id == some env.environment_id) = false := by
            rw [hei]
            have hd : eid ≠ env.environment_id := fun hEq =>
              hmatch (by simp [hEq])
            simp [hd]
          rw [hr, filterEnv_append_nomatch _ _ _ hne]
          exact hold
    · exact absurd hm (by simp)
    · exact absurd hm (by simp)

theorem applyEntries_envConsistent (dup : DupAction) :
    ∀ (entries : List PatientRecordEntry) (p : PatientAgent)
      (envs : List EnvironmentAgent) (p2 : PatientAgent)
      (envs2 : List EnvironmentAgent),
      applyEntries dup p envs entries = .ok (p2, envs2) →
      EnvConsistent p envs → EnvConsistent p2 envs2 := by
  intro entries
  induction entries with
  | nil =>
    intro p envs p2 envs2 h hc
    simp only [applyEntries] at h
    cases h
    exact hc
  | cons e rest ih =>
    intro p envs p2 envs2 h hc
    simp only [applyEntries] at h
    split at h
    · simp at h
    · next p1 envs1 heq =>
      exact ih p1 envs1 p2 envs2 h
        (applyEntry_envConsistent dup p envs e p1 envs1 heq hc)

theorem simStep_envConsistent (cfg : SimConfig) (s : SimState)
    (hc : EnvConsistent s.patient s.environments) :
    EnvConsistent (simStep cfg s).patient (simStep cfg s).environments := by
  unfold simStep
  split
  · exact hc
  · split
    · exact hc
    · split
      · exact hc
      · next p2 envs2 heq =>
        exact applyEntries_envConsistent _ _ _ _ _ _ heq hc

/-- C3: at every reachable state of a run — any number of loop iterations
from a state already satisfying the invariant, such as the initial state
with an empty record and empty histories — the entries of the patient's
record with non-sentinel environment_id are, environment by environment,
exactly and in order the visit entries stored for that patient in that
Environment's patient_interaction_history: each such record entry has its
equivalent visit entry there, and each visit entry corresponds to such a
record entry (an order-preserving bijection). -/
theorem record_history_bijection (cfg : SimConfig) (fuel : Nat)
    (s : SimState) (h : EnvConsistent s.patient s.environments) :
    EnvConsistent (runSim cfg fuel s).patient
      (runSim cfg fuel s).environments :=
  runSim_preserve cfg (fun s => EnvConsistent s.patient s.environments)
    (fun s hp => simStep_envConsistent cfg s hp) (fun _ hp => hp) fuel s h

theorem record_history_bijection_witness :
    EnvConsistent exInit.patient exInit.environments ∧
      EnvConsistent (runSim exCfg 3 exInit).patient
        (runSim exCfg 3 exInit).environments :=
  ⟨by decide, record_history_bijection exCfg 3 exInit (by decide)⟩

/-- C2: over any number of loop iterations the patient record's
patient_time sequence stays non-decreasing in record order, the record
evolves append-only (no existing entry is removed or reordered; a
position may only be replaced in place by a key-equal entry, which
happens only under the overwrite duplicate policy), and a single record
addition is exactly an append, a no-op drop, or an in-place replacement
at one existing position. -/
theorem record_times_monotone_append_only :
    (∀ (cfg : SimConfig) (fuel : Nat) (s : SimState),
        nonDecr (patientTimes s.patient.record) = true →
        nonDecr (patientTimes (runSim cfg fuel s).patient.record) = true) ∧
    (∀ (cfg : SimConfig) (fuel : Nat) (s : SimState),
        recordExtends s.patient.record (runSim cfg fuel s).patient.record) ∧
    (∀ (dup : DupAction) (r : List PatientRecordEntry)
        (e : PatientRecordEntry) (r2 : List PatientRecordEntry)
        (m : AddMode), addRecordEntry dup r e = .ok (r2, m) →
        (m = .appended ∧ r2 = r ++ [e]) ∨ (m = .skipped ∧ r2 = r) ∨
          (m = .overwritten ∧ ∃ j, j < r.length ∧ r2 = r.set j e)) := by
  refine ⟨?_, fun cfg fuel s => runSim_record_extends cfg fuel s, ?_⟩
  · intro cfg fuel s
    exact runSim_preserve cfg
      (fun s => nonDecr (patientTimes s.patient.record) = true)
      (fun s h => simStep_record_nonDecr cfg s h) (fun s h => h) fuel s
  · intro dup r e r2 m h
    rcases addRecordEntry_shape dup r e r2 m h with
      ⟨hm, hr, _, _⟩ | ⟨hm, hr⟩ | ⟨hm, hr, hany⟩
    · exact Or.inl ⟨hm, hr⟩
    · exact Or.inr (Or.inl ⟨hm, hr⟩)
    · obtain ⟨j, hj, hset⟩ := overwriteFirst_set e r hany
      exact Or.inr (Or.inr ⟨hm, j, hj, by rw [hr, hset]⟩)

theorem record_times_monotone_append_only_witness :
    nonDecr (patientTimes (runSim exCfg 3 exInit).patient.record) = true ∧
      recordExtends exInit.patient.record
        (runSim exCfg 3 exInit).patient.record ∧
      ((AddMode.appended = .appended ∧ [exEntry 0] = [] ++ [exEntry 0]) ∨
        (AddMode.appended = .skipped ∧ [exEntry 0] = []) ∨
        (AddMode.appended = .overwritten ∧
          ∃ j, j < ([] : List PatientRecordEntry).length ∧
            [exEntry 0] = List.set [] j (exEntry 0))) :=
  ⟨record_times_monotone_append_only.1 exCfg 3 exInit (by decide),
   record_times_monotone_append_only.2.1 exCfg 3 exInit,
   record_times_monotone_append_only.2.2 .skip [] (exEntry 0)
     [exEntry 0] .appended (by rfl)⟩

theorem runState_cases (r : RunState) (h1 : r ≠ .RUNNING)
    (h2 : r ≠ .STOPPED_CONDITION) (h3 : r ≠ .STOPPED_DEATH) :
    r = .STOPPED_HARD_LIMIT := by
  cases r <;> simp_all

/-- C1: every run of run_patient_simulation terminates after at most
hard_stop steps, independently of the configured stopping condition; if
the run ended neither by the stopping condition nor by patient death (and
no step error was surfaced), it ends in state STOPPED_HARD_LIMIT. -/
theorem run_always_terminates (cfg : SimConfig) (p : PatientAgent)
    (envs : List EnvironmentAgent) (e0 : Nat) :
    (run_patient_simulation cfg p envs e0).stepCount ≤ cfg.hard_stop ∧
      ((run_patient_simulation cfg p envs e0).error = none →
        (run_patient_simulation cfg p envs e0).runState ≠ .RUNNING) ∧
      ((run_patient_simulation cfg p envs e0).error = none →
        (run_patient_simulation cfg p envs e0).runState ≠
          .STOPPED_CONDITION →
        (run_patient_simulation cfg p envs e0).runState ≠ .STOPPED_DEATH →
        (run_patient_simulation cfg p envs e0).runState =
          .STOPPED_HARD_LIMIT) := by
  unfold run_patient_simulation
  refine ⟨runSim_stepCount_le cfg _ _ (Nat.zero_le _), ?_, ?_⟩
  · exact runSim_halts cfg cfg.hard_stop _ (by simp)
  · intro herr hc hd
    exact runState_cases _ (runSim_halts cfg cfg.hard_stop _ (by simp) herr)
      hc hd

theorem run_always_terminates_witness :
    (run_patient_simulation exCfg exPatient [exEnv] 0).stepCount ≤
        exCfg.hard_stop ∧
      (run_patient_simulation exCfg exPatient [exEnv] 0).runState =
        .STOPPED_HARD_LIMIT :=
  ⟨(run_always_terminates exCfg exPatient [exEnv] 0).1,
   (run_always_terminates exCfg exPatient [exEnv] 0).2.2 (by decide)
     (by decide) (by decide)⟩

/-- C10: load_environment selects the AandEEnvironmentAgent class for
environment_type "a_and_e", the GPEnvironmentAgent class for "gp", and
falls back to the generic EnvironmentAgent class for every other value —
unknown environment types load as generic environments rather than
failing. -/
theorem load_environment_dispatches :
    (∀ (load : EnvironmentClass → String → EnvironmentAgent)
        (path : String),
        load_environment load path "a_and_e" =
          load .AandEEnvironmentAgent path) ∧
    (∀ (load : EnvironmentClass → String → EnvironmentAgent)
        (path : String),
        load_environment load path "gp" = load .GPEnvironmentAgent path) ∧
    (∀ (load : EnvironmentClass → String → EnvironmentAgent)
        (path : String) (environment_type : String),
        environment_type ≠ "a_and_e" → environment_type ≠ "gp" →
        load_environment load path environment_type =
          load .EnvironmentAgentClass path) := by
  refine ⟨fun load path => rfl, fun load path => ?_, ?_⟩
  · unfold load_environment
    rw [if_neg (by decide), if_pos rfl]
  · intro load path environment_type h1 h2
    unfold load_environment
    rw [if_neg h1, if_neg h2]

theorem load_environment_dispatches_witness :
    load_environment exLoad "p" "lab" = exLoad .EnvironmentAgentClass "p" :=
  load_environment_dispatches.2.2 exLoad "p" "lab" (by decide) (by decide)

end SynPath
